import Mathlib

/-!
Shallow embedding of `sharppy/sharptab/utils.py`: unit conversions and the
missing-value-aware wind-vector transforms `vec2comp`, `comp2vec`, `mag`.

Modelling choices:
* Machine floats are modelled as real numbers; `numpy` trigonometry becomes
  `Real.sin` / `Real.cos` / `Complex.arg`.
* Scalar branch: a possibly-masked scalar is `Option ℝ` (`none` = the
  `ma.masked` singleton).  This is faithful because every scalar `ma`
  operation with a masked operand returns the bare `masked` singleton, and
  `if ma.fabs(u) < TOL:` on a masked value is falsy.
* Field branch: a masked-array element is a pair `(data, mask) : ℝ × Bool`.
  The raw datum under a masked element is semantically relevant: `numpy.ma`
  element-wise operations compute on raw data and, where the result is
  masked, revert the result datum to the FIRST operand's raw datum
  (`np.copyto(result, da, where=m)` in `_MaskedBinaryOperation`, and the
  fill-back in `_MaskedUnaryOperation`), and the snap assignments
  `u[np.fabs(u) < TOL] = 0.` index by the comparison's RAW data (the
  index's own mask is ignored) and, assigning an unmasked `0.`, CLEAR the
  mask at every selected position.
* Python's float modulo `x % 360.`, whose result takes the divisor's sign,
  is `fmod` below.
-/

noncomputable section

open Real

/-- Modelled from the spec: the process-wide missing-data sentinel
`MISSING` from `sharppy.sharptab.constants` (that module is not part of the
sources here); the repository uses the value -9999. -/
def MISSING : ℝ := -9999

/-- Modelled from the spec: the tolerance constant `TOL` from
`sharppy.sharptab.constants` (not part of the sources here), "a small
positive threshold"; the repository uses 1e-10. -/
def TOL : ℝ := 1e-10

/-- `MS2KTS(val) = val * 1.94384449`. -/
def MS2KTS (val : ℝ) : ℝ := val * 1.94384449

/-- `KTS2MS(val) = val * 0.514444`. -/
def KTS2MS (val : ℝ) : ℝ := val * 0.514444

/-- `MS2MPH(val) = val * 2.23694`. -/
def MS2MPH (val : ℝ) : ℝ := val * 2.23694

/-- `MPH2MS(val) = val * 0.44704`. -/
def MPH2MS (val : ℝ) : ℝ := val * 0.44704

/-- `MPH2KTS(val) = val * 0.868976`. -/
def MPH2KTS (val : ℝ) : ℝ := val * 0.868976

/-- `KTS2MPH(val) = val * 1.15078`. -/
def KTS2MPH (val : ℝ) : ℝ := val * 1.15078

/-- `M2FT(val) = val * 3.2808399`. -/
def M2FT (val : ℝ) : ℝ := val * 3.2808399

/-- `FT2M(val) = val * 0.3048`. -/
def FT2M (val : ℝ) : ℝ := val * 0.3048

/-- Python float modulo with the divisor's sign (`wdir % 360.`): for a
positive divisor the result lies in `[0, b)`. -/
def fmod (a b : ℝ) : ℝ := a - b * ⌊a / b⌋

/-- `np.radians`: degrees to radians. -/
def radians (d : ℝ) : ℝ := d * (π / 180)

/-- `np.degrees`: radians to degrees. -/
def degrees (r : ℝ) : ℝ := r * (180 / π)

/-- `np.arctan2 y x` over the reals: the argument of the complex number
`x + y i`, in `(-π, π]` (with `atan2 0 0 = 0`; IEEE signed zeros have no
real-number counterpart). -/
def atan2 (y x : ℝ) : ℝ := Complex.arg ((x : ℂ) + (y : ℂ) * Complex.I)

/-! ### Scalar-branch masked values -/

/-- Lift a binary real operation to masked scalars: any masked operand
yields the masked singleton (scalar `numpy.ma` semantics). -/
def mLift2 (f : ℝ → ℝ → ℝ) : Option ℝ → Option ℝ → Option ℝ
  | some a, some b => some (f a b)
  | _, _ => none

/-- `_vec2comp(wdir, wspd)` on scalars:
`u = wspd * sin(radians(wdir % 360.)) * -1`,
`v = wspd * cos(radians(wdir % 360.)) * -1`, with masked operands
propagating to masked results. -/
def _vec2comp (wdir wspd : Option ℝ) : Option ℝ × Option ℝ :=
  (mLift2 (fun s d => s * Real.sin (radians (fmod d 360)) * (-1)) wspd wdir,
   mLift2 (fun s d => s * Real.cos (radians (fmod d 360)) * (-1)) wspd wdir)

/-- The scalar tolerance snap `if ma.fabs(u) < TOL: u = 0.`: `ma.fabs` of
the masked singleton is masked, whose truth value is false, so a masked
scalar is untouched; a present value below `TOL` in absolute value becomes
0.  (The field branch uses a different, raw-data-indexed snap: `snapTolF`
below.) -/
def snapTol : Option ℝ → Option ℝ
  | none => none
  | some a => if |a| < TOL then some 0 else some a

/-- The missing-value step of the scalar branch of `vec2comp`:
`if wdir == missing: wdir = wspd = masked; elif wspd == missing: ...`. -/
def vec2compMaskedS (wdir wspd missing : ℝ) : Option ℝ × Option ℝ :=
  if wdir = missing then (none, none)
  else if wspd = missing then (none, none)
  else (some wdir, some wspd)

/-- Scalar branch of `vec2comp`: the missing-value step, the core
transform, then the scalar tolerance snap on each component. -/
def vec2comp_scalar (wdir wspd missing : ℝ) : Option ℝ × Option ℝ :=
  let p := vec2compMaskedS wdir wspd missing
  let uv := _vec2comp p.1 p.2
  (snapTol uv.1, snapTol uv.2)

/-- `mag` on non-array inputs: masked when either input equals the
sentinel, otherwise `sqrt(u**2 + v**2)`. -/
def mag_scalar (u v missing : ℝ) : Option ℝ :=
  if u = missing ∨ v = missing then none else some (Real.sqrt (u ^ 2 + v ^ 2))

/-- `wdir = np.degrees(np.arctan2(-u, -v))` on one scalar pair. -/
def dirRaw (u v : ℝ) : ℝ := degrees (atan2 (-u) (-v))

/-- `if wdir < 0: wdir += 360` on one scalar value. -/
def dirNorm (w : ℝ) : ℝ := if w < 0 then w + 360 else w

/-- `if np.fabs(wdir) < TOL: wdir = 0.` on one scalar value. -/
def dirSnap (w : ℝ) : ℝ := if |w| < TOL then 0 else w

/-- Scalar branch of `comp2vec`.  Mirroring the source's line order, the
raw direction is computed before the sentinel test; when either input
equals the sentinel the early return yields `(masked, masked)` and the
computed raw direction is discarded without the normalization, snap, or
magnitude steps.  Note that the `mag(u, v)` call uses the default
`MISSING`, not the `missing` argument of `comp2vec`. -/
def comp2vec_scalar (u v missing : ℝ) : Option ℝ × Option ℝ :=
  let wdir := dirRaw u v
  if u = missing ∨ v = missing then (none, none)
  else (some (dirSnap (dirNorm wdir)), mag_scalar u v MISSING)

/-! ### Field-branch masked arrays

A field element is `(data, mask) : ℝ × Bool`; a field is a list of them. -/

/-- A `numpy.ma` binary element-wise operation: the result mask is the
union, the datum is computed on the raw data, and at masked positions the
result datum is reverted to the FIRST operand's raw datum
(`np.copyto(result, da, where=m)`). -/
def maBin (f : ℝ → ℝ → ℝ) (x y : ℝ × Bool) : ℝ × Bool :=
  (if x.2 = true ∨ y.2 = true then x.1 else f x.1 y.1, x.2 || y.2)

/-- A `numpy.ma` unary element-wise operation: the mask is preserved and
at masked positions the datum is filled back with the input's raw datum. -/
def maUn (f : ℝ → ℝ) (x : ℝ × Bool) : ℝ × Bool :=
  (if x.2 = true then x.1 else f x.1, x.2)

/-- A plain numpy ufunc applied to a masked array: the datum is computed
on the raw data everywhere, the mask is merely carried along. -/
def npUn (f : ℝ → ℝ) (x : ℝ × Bool) : ℝ × Bool :=
  (f x.1, x.2)

/-- `_vec2comp(wdir, wspd)` on one array position:
`u = wspd * ma.sin(np.radians(wdir % 360.)) * -1` and the `cos` analogue,
composed from the `ma` mod (a `ma` binary operation), the plain `radians`
ufunc, `ma.sin`/`ma.cos`, and the two `ma` multiplications.  At a masked
position the reverts make the carried datum equal the raw speed datum. -/
def _vec2compF (wdir wspd : ℝ × Bool) : (ℝ × Bool) × (ℝ × Bool) :=
  (maBin (fun a b => a * b)
     (maBin (fun a b => a * b) wspd
       (maUn Real.sin (npUn radians (maBin fmod wdir (360, false)))))
     (-1, false),
   maBin (fun a b => a * b)
     (maBin (fun a b => a * b) wspd
       (maUn Real.cos (npUn radians (maBin fmod wdir (360, false)))))
     (-1, false))

/-- The field tolerance snap `u[np.fabs(u) < TOL] = 0.` on one element:
the boolean index is the comparison's RAW data (its own mask is ignored),
and assigning the unmasked scalar `0.` writes the datum and CLEARS the
mask at every selected position — including masked positions whose
carried raw datum is below `TOL`. -/
def snapTolF (x : ℝ × Bool) : ℝ × Bool :=
  if |x.1| < TOL then (0, false) else x

/-- `x[x == missing] = ma.masked` on one field element: the comparison's
raw datum selects positions whose data equals the sentinel; assigning
`ma.masked` sets the mask and leaves the datum in place. -/
def maskMissingF (missing : ℝ) (xs : List (ℝ × Bool)) : List (ℝ × Bool) :=
  xs.map fun x => (x.1, if x.1 = missing then true else x.2)

/-- `xs[ys.mask] = ma.masked`: set the mask of `xs` wherever `ys` is
masked; data unchanged. -/
def maskByF (xs ys : List (ℝ × Bool)) : List (ℝ × Bool) :=
  List.zipWith (fun x y => (x.1, x.2 || y.2)) xs ys

/-- The missing-value step of the field branch of `vec2comp` (source lines
`wdir[wdir == missing] = ma.masked` ... `wspd[wdir.mask] = ma.masked`):
after it, direction and speed are masked at exactly the same positions,
each still carrying its raw datum. -/
def vec2compMasksF (missing : ℝ) (wdir wspd : List (ℝ × Bool)) :
    List (ℝ × Bool) × List (ℝ × Bool) :=
  let wd1 := maskMissingF missing wdir
  let ws1 := maskMissingF missing wspd
  let wd2 := maskByF wd1 ws1
  let ws2 := maskByF ws1 wd2
  (wd2, ws2)

/-- The effect of the missing-value step of `vec2comp` on the pair of
elements at a single position: sentinel equality masks, then each operand
inherits the other's mask (in source order); data stays in place. -/
def maskPairF (du su : ℝ × Bool) (m : ℝ) : (ℝ × Bool) × (ℝ × Bool) :=
  let du1 : ℝ × Bool := (du.1, if du.1 = m then true else du.2)
  let su1 : ℝ × Bool := (su.1, if su.1 = m then true else su.2)
  let du2 : ℝ × Bool := (du1.1, du1.2 || su1.2)
  let su2 : ℝ × Bool := (su1.1, su1.2 || du2.2)
  (du2, su2)

/-- Field branch of `vec2comp`: missing-value step, element-wise core
transform, then the raw-data-indexed tolerance snap on each component. -/
def vec2comp_field (wdir wspd : List (ℝ × Bool)) (missing : ℝ) :
    List (ℝ × Bool) × List (ℝ × Bool) :=
  let p := vec2compMasksF missing wdir wspd
  let u := List.zipWith (fun d s => (_vec2compF d s).1) p.1 p.2
  let v := List.zipWith (fun d s => (_vec2compF d s).2) p.1 p.2
  (u.map snapTolF, v.map snapTolF)

/-- `mag` on fields: mask sentinel-valued positions in each input, then
`ma.sqrt(u**2 + v**2)` element-wise (`ma` power, addition and square
root, each reverting masked positions' data to the first operand's). -/
def mag_field (us vs : List (ℝ × Bool)) (missing : ℝ) : List (ℝ × Bool) :=
  let us1 := maskMissingF missing us
  let vs1 := maskMissingF missing vs
  List.zipWith
    (fun x y => maUn Real.sqrt
      (maBin (fun a b => a + b) (maUn (fun a => a ^ 2) x)
        (maUn (fun a => a ^ 2) y)))
    us1 vs1

/-- `wdir[wdir < 0] += 360` on one element: the raw comparison selects the
position, but the in-place `ma` addition reverts a masked position's datum
and rewrites its mask, so only unmasked negative positions change. -/
def dirNormF (w : ℝ × Bool) : ℝ × Bool :=
  if w.1 < 0 ∧ w.2 = false then (w.1 + 360, w.2) else w

/-- Field branch of `comp2vec`: the raw direction
`np.degrees(np.arctan2(-u, -v))` is computed element-wise on the raw data
(plain ufuncs) with the input masks united, before any sentinel masking;
then `u` and `v` are sentinel-masked, their masks pushed onto the
direction, the `+360` normalization applied to unmasked negative
positions, and the raw-data-indexed snap `wdir[np.fabs(wdir) < TOL] = 0.`
applied — which UNMASKS a masked position whose raw direction datum is
below `TOL`.  The speed is `mag(u, v)` with the default `MISSING`. -/
def comp2vec_field (us vs : List (ℝ × Bool)) (missing : ℝ) :
    List (ℝ × Bool) × List (ℝ × Bool) :=
  let wdir0 := List.zipWith
    (fun x y => (degrees (atan2 (-x.1) (-y.1)), x.2 || y.2)) us vs
  let us1 := maskMissingF missing us
  let vs1 := maskMissingF missing vs
  let wdir2 := maskByF (maskByF wdir0 us1) vs1
  ((wdir2.map dirNormF).map snapTolF, mag_field us1 vs1 MISSING)

/-- The round trip `comp2vec(*vec2comp(wdir, wspd, missing), missing)` on
scalars (when `vec2comp` yields a masked component, `comp2vec` of masked
scalars is masked as well). -/
def roundTrip (d s missing : ℝ) : Option ℝ × Option ℝ :=
  match vec2comp_scalar d s missing with
  | (some u, some v) => comp2vec_scalar u v missing
  | _ => (none, none)

end

open Real

/-! ### Arithmetic helper lemmas -/

lemma fmod_nonneg (a : ℝ) : 0 ≤ fmod a 360 := by
  unfold fmod
  have h : (⌊a / 360⌋ : ℝ) ≤ a / 360 := Int.floor_le _
  nlinarith

lemma fmod_lt_360 (a : ℝ) : fmod a 360 < 360 := by
  unfold fmod
  have h : a / 360 < ⌊a / 360⌋ + 1 := Int.lt_floor_add_one _
  nlinarith

lemma fmod_eq_self {a : ℝ} (h0 : 0 ≤ a) (h1 : a < 360) : fmod a 360 = a := by
  unfold fmod
  have : ⌊a / 360⌋ = 0 := by
    rw [Int.floor_eq_zero_iff]
    constructor
    · positivity
    · rw [div_lt_one (by norm_num)]; linarith
  rw [this]
  norm_num

/-! ### C8: unit conversions -/

/-- C8: each unit-conversion function multiplies its input by its fixed
constant (MS2KTS by 1.94384449, KTS2MS by 0.514444, MS2MPH by 2.23694,
MPH2MS by 0.44704, MPH2KTS by 0.868976, KTS2MPH by 1.15078, M2FT by
3.2808399, FT2M by 0.3048); in particular `MS2KTS 1 = 1.94384449`, and
`FT2M (M2FT x)` is within `|x| / 10^8` of `x` for every `x`. -/
theorem unit_conversions_spec (x : ℝ) :
    MS2KTS x = x * 1.94384449 ∧ KTS2MS x = x * 0.514444 ∧
    MS2MPH x = x * 2.23694 ∧ MPH2MS x = x * 0.44704 ∧
    MPH2KTS x = x * 0.868976 ∧ KTS2MPH x = x * 1.15078 ∧
    M2FT x = x * 3.2808399 ∧ FT2M x = x * 0.3048 ∧
    MS2KTS 1 = 1.94384449 ∧
    FT2M (M2FT x) = x * (1 + 152 / 10 ^ 11) ∧
    |FT2M (M2FT x) - x| ≤ |x| / 10 ^ 8 := by
  refine ⟨rfl, rfl, rfl, rfl, rfl, rfl, rfl, rfl, by norm_num [MS2KTS], ?_, ?_⟩
  · unfold FT2M M2FT; norm_num; ring
  · have h : FT2M (M2FT x) - x = x * (152 / 10 ^ 11) := by
      unfold FT2M M2FT; norm_num; ring
    rw [h, abs_mul]
    have h2 : |(152 : ℝ) / 10 ^ 11| ≤ 1 / 10 ^ 8 := by
      rw [abs_of_nonneg (by norm_num)]; norm_num
    calc |x| * |(152 : ℝ) / 10 ^ 11| ≤ |x| * (1 / 10 ^ 8) :=
          mul_le_mul_of_nonneg_left h2 (abs_nonneg x)
      _ = |x| / 10 ^ 8 := by ring

/-! ### C2: the core transform formula -/

/-- C2: on non-masked inputs the shared core transform returns
`u = -speed * sin(radians(direction mod 360))` and
`v = -speed * cos(radians(direction mod 360))` — in the scalar lift and in
the array (field) lift alike — the direction being reduced modulo 360
(into `[0, 360)`) before the trigonometric evaluation. -/
theorem vec2comp_core_formula (d s : ℝ) :
    _vec2comp (some d) (some s)
      = (some (-(s * Real.sin (radians (fmod d 360)))),
         some (-(s * Real.cos (radians (fmod d 360))))) ∧
    _vec2compF (d, false) (s, false)
      = ((-(s * Real.sin (radians (fmod d 360))), false),
         (-(s * Real.cos (radians (fmod d 360))), false)) ∧
    0 ≤ fmod d 360 ∧ fmod d 360 < 360 := by
  refine ⟨?_, ?_, fmod_nonneg d, fmod_lt_360 d⟩
  · simp only [_vec2comp, mLift2, Prod.mk.injEq, Option.some.injEq]
    constructor <;> ring
  · simp only [_vec2compF, maBin, maUn, npUn]
    norm_num

/-! ### C4: magnitude -/

/-- C4: `mag` returns `sqrt(u^2 + v^2)` for non-missing scalar inputs, the
result is non-negative, the zero vector yields exactly zero (no tolerance
snapping), and a sentinel-valued input yields a masked result. -/
theorem mag_spec :
    (∀ u v : ℝ, u ≠ MISSING → v ≠ MISSING →
        mag_scalar u v MISSING = some (Real.sqrt (u ^ 2 + v ^ 2)) ∧
        0 ≤ Real.sqrt (u ^ 2 + v ^ 2)) ∧
    mag_scalar 0 0 MISSING = some 0 ∧
    (∀ u v : ℝ, u = MISSING ∨ v = MISSING → mag_scalar u v MISSING = none) := by
  refine ⟨fun u v hu hv => ⟨?_, Real.sqrt_nonneg _⟩, ?_, fun u v h => ?_⟩
  · unfold mag_scalar
    rw [if_neg (by tauto)]
  · unfold mag_scalar
    rw [if_neg (by norm_num [MISSING])]
    norm_num
  · unfold mag_scalar
    rw [if_pos h]

/-- Witness for C4 at `u = 3`, `v = 4`. -/
theorem mag_spec_witness :
    (3 : ℝ) ≠ MISSING ∧ (4 : ℝ) ≠ MISSING ∧
    mag_scalar 3 4 MISSING = some (Real.sqrt (3 ^ 2 + 4 ^ 2)) :=
  ⟨by norm_num [MISSING], by norm_num [MISSING],
   (mag_spec.1 3 4 (by norm_num [MISSING]) (by norm_num [MISSING])).1⟩

/-! ### C6: scalar short-circuit of comp2vec -/

/-- C6: on scalar inputs, if `u` or `v` equals the sentinel, `comp2vec`
returns masked for both outputs by the early return; the raw direction
computed just before the test is discarded, and the normalization, snap
and magnitude steps are skipped. -/
theorem comp2vec_scalar_shortcircuit (u v m : ℝ) (h : u = m ∨ v = m) :
    comp2vec_scalar u v m = (none, none) := by
  simp only [comp2vec_scalar]
  rw [if_pos h]

/-- Witness for C6 at `u = MISSING`, `v = 5`. -/
theorem comp2vec_scalar_shortcircuit_witness :
    (MISSING = MISSING ∨ (5 : ℝ) = MISSING) ∧
    comp2vec_scalar MISSING 5 MISSING = (none, none) :=
  ⟨Or.inl rfl, comp2vec_scalar_shortcircuit MISSING 5 MISSING (Or.inl rfl)⟩

/-! ### Pointwise lemmas for the field pipelines -/

lemma vec2compMasksF_eq (m : ℝ) (ds ss : List (ℝ × Bool)) :
    vec2compMasksF m ds ss =
      (maskByF (maskMissingF m ds) (maskMissingF m ss),
       maskByF (maskMissingF m ss)
         (maskByF (maskMissingF m ds) (maskMissingF m ss))) :=
  rfl

lemma vec2comp_fieldF_eq (ds ss : List (ℝ × Bool)) (m : ℝ) :
    vec2comp_field ds ss m =
      ((List.zipWith (fun d s => (_vec2compF d s).1)
          (vec2compMasksF m ds ss).1 (vec2compMasksF m ds ss).2).map snapTolF,
       (List.zipWith (fun d s => (_vec2compF d s).2)
          (vec2compMasksF m ds ss).1 (vec2compMasksF m ds ss).2).map snapTolF) :=
  rfl

lemma comp2vec_fieldF_eq (us vs : List (ℝ × Bool)) (m : ℝ) :
    comp2vec_field us vs m =
      (((maskByF (maskByF
            (List.zipWith
              (fun x y => (degrees (atan2 (-x.1) (-y.1)), x.2 || y.2)) us vs)
            (maskMissingF m us)) (maskMissingF m vs)).map
          dirNormF).map snapTolF,
       mag_field (maskMissingF m us) (maskMissingF m vs) MISSING) :=
  rfl

lemma maskMissingF_getElem? (m : ℝ) (xs : List (ℝ × Bool)) (i : ℕ)
    (a : ℝ) (am : Bool) (hx : xs[i]? = some (a, am)) :
    (maskMissingF m xs)[i]? = some (a, if a = m then true else am) := by
  simp [maskMissingF, List.getElem?_map, hx]

lemma maskByF_getElem? (xs ys : List (ℝ × Bool)) (i : ℕ)
    (a : ℝ) (am : Bool) (b : ℝ) (bm : Bool)
    (hx : xs[i]? = some (a, am)) (hy : ys[i]? = some (b, bm)) :
    (maskByF xs ys)[i]? = some (a, am || bm) := by
  simp [maskByF, List.getElem?_zipWith', hx, hy]

lemma vec2compMasksF_getElem? (m : ℝ) (ds ss : List (ℝ × Bool)) (i : ℕ)
    (du su : ℝ × Bool) (hd : ds[i]? = some du) (hs : ss[i]? = some su) :
    (vec2compMasksF m ds ss).1[i]? = some (maskPairF du su m).1 ∧
    (vec2compMasksF m ds ss).2[i]? = some (maskPairF du su m).2 := by
  obtain ⟨d, md⟩ := du
  obtain ⟨s, ms⟩ := su
  have h1 := maskMissingF_getElem? m ds i d md hd
  have h2 := maskMissingF_getElem? m ss i s ms hs
  have hw := maskByF_getElem? _ _ i _ _ _ _ h1 h2
  have hw2 := maskByF_getElem? _ _ i _ _ _ _ h2 hw
  exact ⟨hw, hw2⟩

lemma vec2comp_fieldF_getElem? (m : ℝ) (ds ss : List (ℝ × Bool)) (i : ℕ)
    (du su : ℝ × Bool) (hd : ds[i]? = some du) (hs : ss[i]? = some su) :
    (vec2comp_field ds ss m).1[i]?
      = some (snapTolF
          (_vec2compF (maskPairF du su m).1 (maskPairF du su m).2).1) ∧
    (vec2comp_field ds ss m).2[i]?
      = some (snapTolF
          (_vec2compF (maskPairF du su m).1 (maskPairF du su m).2).2) := by
  obtain ⟨h1, h2⟩ := vec2compMasksF_getElem? m ds ss i du su hd hs
  rw [vec2comp_fieldF_eq]
  constructor <;> simp [List.getElem?_map, List.getElem?_zipWith', h1, h2]

lemma maskPairF_masked (du su : ℝ × Bool) (m : ℝ)
    (h : du.2 = true ∨ du.1 = m ∨ su.2 = true ∨ su.1 = m) :
    maskPairF du su m = ((du.1, true), (su.1, true)) := by
  obtain ⟨d, md⟩ := du
  obtain ⟨s, ms⟩ := su
  simp only [maskPairF]
  by_cases hd : d = m <;> by_cases hs : s = m <;> cases md <;> cases ms <;>
    simp_all

lemma _vec2compF_masked (a b : ℝ) :
    _vec2compF (a, true) (b, true) = ((b, true), (b, true)) := by
  simp [_vec2compF, maBin, maUn, npUn]

/-! ### C5: masking in vec2comp -/

/-- C5 counterexample (the original claim is false on the code): in
`vec2comp([MISSING, 90], [0, 5])`, position 0 is masked in both inputs
after the missing-value step, yet both returned components at position 0
are the unmasked number 0.0 — the raw-data-indexed snap selects the
masked position (its carried raw speed datum 0 satisfies `|0| < TOL`) and
assigning `0.` clears the mask. -/
theorem vec2comp_snap_unmasks :
    (-9999 : ℝ) = MISSING ∧
    (vec2comp_field [((-9999 : ℝ), false), ((90 : ℝ), false)]
        [((0 : ℝ), false), ((5 : ℝ), false)] MISSING).1[0]?
      = some ((0 : ℝ), false) ∧
    (vec2comp_field [((-9999 : ℝ), false), ((90 : ℝ), false)]
        [((0 : ℝ), false), ((5 : ℝ), false)] MISSING).2[0]?
      = some ((0 : ℝ), false) := by
  have hm : maskPairF ((-9999 : ℝ), false) ((0 : ℝ), false) MISSING
      = (((-9999 : ℝ), true), ((0 : ℝ), true)) :=
    maskPairF_masked _ _ _ (Or.inr (Or.inl (by norm_num [MISSING])))
  obtain ⟨g1, g2⟩ := vec2comp_fieldF_getElem? MISSING
    [((-9999 : ℝ), false), ((90 : ℝ), false)]
    [((0 : ℝ), false), ((5 : ℝ), false)] 0
    ((-9999 : ℝ), false) ((0 : ℝ), false) rfl rfl
  rw [hm, _vec2compF_masked] at g1 g2
  refine ⟨by norm_num [MISSING], ?_, ?_⟩
  · rw [g1]; norm_num [snapTolF, TOL]
  · rw [g2]; norm_num [snapTolF, TOL]

/-- C5 (amended): in the field branch of `vec2comp`, any position whose
direction or speed element is already masked or equals the sentinel has
both masked (still carrying their raw data) before the transform; the
returned `u` and `v` at that position are both masked — carrying the raw
speed datum — provided that datum is at least `TOL` in magnitude, and are
otherwise both the unmasked number 0 (the raw-data-indexed snap clears
the mask).  On scalars, `vec2comp(MISSING, 5)` and `vec2comp(10, MISSING)`
both return `(masked, masked)`. -/
theorem vec2comp_masking_amended :
    (∀ (m : ℝ) (ds ss : List (ℝ × Bool)) (i : ℕ) (du su : ℝ × Bool),
        ds[i]? = some du → ss[i]? = some su →
        (du.2 = true ∨ du.1 = m ∨ su.2 = true ∨ su.1 = m) →
        ((vec2compMasksF m ds ss).1[i]? = some (du.1, true) ∧
         (vec2compMasksF m ds ss).2[i]? = some (su.1, true) ∧
         (vec2comp_field ds ss m).1[i]?
           = some (if |su.1| < TOL then ((0 : ℝ), false) else (su.1, true)) ∧
         (vec2comp_field ds ss m).2[i]?
           = some (if |su.1| < TOL then ((0 : ℝ), false) else (su.1, true)))) ∧
    vec2comp_scalar MISSING 5 MISSING = (none, none) ∧
    vec2comp_scalar 10 MISSING MISSING = (none, none) := by
  refine ⟨fun m ds ss i du su hd hs hcond => ?_, ?_, ?_⟩
  · have hm := maskPairF_masked du su m hcond
    obtain ⟨h1, h2⟩ := vec2compMasksF_getElem? m ds ss i du su hd hs
    rw [hm] at h1 h2
    obtain ⟨g1, g2⟩ := vec2comp_fieldF_getElem? m ds ss i du su hd hs
    rw [hm, _vec2compF_masked] at g1 g2
    refine ⟨h1, h2, ?_, ?_⟩
    · rw [g1]; simp [snapTolF]
    · rw [g2]; simp [snapTolF]
  · simp [vec2comp_scalar, vec2compMaskedS, _vec2comp, mLift2, snapTol]
  · norm_num [vec2comp_scalar, vec2compMaskedS, _vec2comp, mLift2, snapTol,
      MISSING]

/-- Witness for C5 (amended): `vec2comp([MISSING], [5])` at position 0
keeps both components masked (the carried raw speed datum 5 is not below
`TOL`). -/
theorem vec2comp_masking_amended_witness :
    (([((-9999 : ℝ), false)] : List (ℝ × Bool))[0]? = some ((-9999 : ℝ), false)) ∧
    (((-9999 : ℝ), false) : ℝ × Bool).1 = MISSING ∧
    (vec2comp_field [((-9999 : ℝ), false)] [((5 : ℝ), false)] MISSING).1[0]?
      = some ((5 : ℝ), true) ∧
    (vec2comp_field [((-9999 : ℝ), false)] [((5 : ℝ), false)] MISSING).2[0]?
      = some ((5 : ℝ), true) := by
  have h := vec2comp_masking_amended.1 MISSING [((-9999 : ℝ), false)]
    [((5 : ℝ), false)] 0 ((-9999 : ℝ), false) ((5 : ℝ), false) rfl rfl
    (Or.inr (Or.inl (by norm_num [MISSING])))
  refine ⟨rfl, by norm_num [MISSING], ?_, ?_⟩
  · have h3 := h.2.2.1
    rwa [if_neg (by norm_num [TOL])] at h3
  · have h4 := h.2.2.2
    rwa [if_neg (by norm_num [TOL])] at h4

/-! ### C10: the tolerance snap and masked positions -/

/-- C10 counterexample (the original claim is false on the code): in
`vec2comp([MISSING], [0])` position 0 is masked after the missing-value
step, yet the `|value| < TOL` comparison on the masked element does
trigger the snap (it is evaluated on the carried raw datum 0), so both
returned components are the unmasked number 0.0 — a masked position is
conflated with exact zero. -/
theorem snap_unmasks_masked_zero :
    (vec2compMasksF MISSING [((-9999 : ℝ), false)] [((0 : ℝ), false)]).1[0]?
      = some ((-9999 : ℝ), true) ∧
    (vec2comp_field [((-9999 : ℝ), false)] [((0 : ℝ), false)] MISSING).1[0]?
      = some ((0 : ℝ), false) ∧
    (vec2comp_field [((-9999 : ℝ), false)] [((0 : ℝ), false)] MISSING).2[0]?
      = some ((0 : ℝ), false) := by
  have hm : maskPairF ((-9999 : ℝ), false) ((0 : ℝ), false) MISSING
      = (((-9999 : ℝ), true), ((0 : ℝ), true)) :=
    maskPairF_masked _ _ _ (Or.inr (Or.inl (by norm_num [MISSING])))
  obtain ⟨h1, h2⟩ := vec2compMasksF_getElem? MISSING [((-9999 : ℝ), false)]
    [((0 : ℝ), false)] 0 ((-9999 : ℝ), false) ((0 : ℝ), false) rfl rfl
  obtain ⟨g1, g2⟩ := vec2comp_fieldF_getElem? MISSING [((-9999 : ℝ), false)]
    [((0 : ℝ), false)] 0 ((-9999 : ℝ), false) ((0 : ℝ), false) rfl rfl
  rw [hm] at h1
  rw [hm, _vec2compF_masked] at g1 g2
  refine ⟨h1, ?_, ?_⟩
  · rw [g1]; norm_num [snapTolF, TOL]
  · rw [g2]; norm_num [snapTolF, TOL]

/-- C10 (amended): the scalar snap fixes masked values (`snapTol none =
none`, and a scalar pair masked by the missing-value step stays masked
through `vec2comp`); the field snap, however, is indexed by the RAW data:
it fixes an element — masked or not — exactly when its raw datum is at
least `TOL` in magnitude, and replaces any element with raw datum below
`TOL` by the unmasked number 0, clearing the mask.  Consequently a field
position masked after the missing-value step remains masked in both
returned components if and only if its carried raw speed datum is at
least `TOL` in magnitude. -/
theorem snap_preserves_mask_amended :
    snapTol none = none ∧
    (∀ d s m : ℝ, (vec2compMaskedS d s m).1 = none →
        vec2comp_scalar d s m = (none, none)) ∧
    (∀ x : ℝ × Bool, TOL ≤ |x.1| → snapTolF x = x) ∧
    (∀ x : ℝ × Bool, |x.1| < TOL → snapTolF x = ((0 : ℝ), false)) ∧
    (∀ (m : ℝ) (ds ss : List (ℝ × Bool)) (i : ℕ) (du su : ℝ × Bool),
        ds[i]? = some du → ss[i]? = some su →
        (vec2compMasksF m ds ss).1[i]? = some (du.1, true) →
        TOL ≤ |su.1| →
        (vec2comp_field ds ss m).1[i]? = some (su.1, true) ∧
        (vec2comp_field ds ss m).2[i]? = some (su.1, true)) := by
  refine ⟨rfl, fun d s m h => ?_, fun x hx => ?_, fun x hx => ?_,
    fun m ds ss i du su hd hs hmask hTol => ?_⟩
  · simp only [vec2comp_scalar, vec2compMaskedS] at h ⊢
    split_ifs at h ⊢ <;> simp_all [_vec2comp, mLift2, snapTol]
  · unfold snapTolF
    rw [if_neg (not_lt.mpr hx)]
  · unfold snapTolF
    rw [if_pos hx]
  · obtain ⟨h1, h2⟩ := vec2compMasksF_getElem? m ds ss i du su hd hs
    have e1 : (maskPairF du su m).1 = (du.1, true) :=
      Option.some_injective _ (h1.symm.trans hmask)
    have e2 : (maskPairF du su m).2 = (su.1, true) := by
      obtain ⟨d, md⟩ := du
      obtain ⟨s, ms⟩ := su
      simp only [maskPairF, Prod.mk.injEq] at e1 ⊢
      refine ⟨by trivial, ?_⟩
      rw [e1.2]
      exact Bool.or_true _
    have hm : maskPairF du su m = ((du.1, true), (su.1, true)) := by
      rw [← e1, ← e2]
    obtain ⟨g1, g2⟩ := vec2comp_fieldF_getElem? m ds ss i du su hd hs
    rw [hm, _vec2compF_masked] at g1 g2
    have hsnap : snapTolF (su.1, true) = (su.1, true) := by
      unfold snapTolF
      rw [if_neg (not_lt.mpr hTol)]
    rw [hsnap] at g1 g2
    exact ⟨g1, g2⟩

/-- Witness for C10 (amended): `vec2comp([MISSING], [7])` at position 0 is
masked after the missing-value step and, since `TOL ≤ |7|`, stays masked
in both outputs. -/
theorem snap_preserves_mask_amended_witness :
    (vec2compMasksF MISSING [((-9999 : ℝ), false)] [((7 : ℝ), false)]).1[0]?
      = some ((-9999 : ℝ), true) ∧
    TOL ≤ |(7 : ℝ)| ∧
    (vec2comp_field [((-9999 : ℝ), false)] [((7 : ℝ), false)] MISSING).1[0]?
      = some ((7 : ℝ), true) ∧
    (vec2comp_field [((-9999 : ℝ), false)] [((7 : ℝ), false)] MISSING).2[0]?
      = some ((7 : ℝ), true) := by
  have hm : maskPairF ((-9999 : ℝ), false) ((7 : ℝ), false) MISSING
      = (((-9999 : ℝ), true), ((7 : ℝ), true)) :=
    maskPairF_masked _ _ _ (Or.inr (Or.inl (by norm_num [MISSING])))
  have hmask : (vec2compMasksF MISSING [((-9999 : ℝ), false)]
      [((7 : ℝ), false)]).1[0]? = some ((-9999 : ℝ), true) := by
    have h1 := (vec2compMasksF_getElem? MISSING [((-9999 : ℝ), false)]
      [((7 : ℝ), false)] 0 ((-9999 : ℝ), false) ((7 : ℝ), false) rfl rfl).1
    rwa [hm] at h1
  have h := snap_preserves_mask_amended.2.2.2.2 MISSING
    [((-9999 : ℝ), false)] [((7 : ℝ), false)] 0 ((-9999 : ℝ), false)
    ((7 : ℝ), false) rfl rfl hmask (by norm_num [TOL])
  exact ⟨hmask, by norm_num [TOL], h.1, h.2⟩

/-! ### C7: shape checking -/

lemma degrees_radians (x : ℝ) : degrees (radians x) = x := by
  unfold degrees radians
  have h := Real.pi_ne_zero
  field_simp

lemma dirRaw_bounds (u v : ℝ) : -180 < dirRaw u v ∧ dirRaw u v ≤ 180 := by
  unfold dirRaw degrees
  have h1 : -π < atan2 (-u) (-v) := Complex.neg_pi_lt_arg _
  have h2 : atan2 (-u) (-v) ≤ π := Complex.arg_le_pi _
  have hπ : (0 : ℝ) < π := Real.pi_pos
  constructor
  · have h3 := mul_lt_mul_of_pos_right h1 (show (0:ℝ) < 180 / π by positivity)
    calc (-180 : ℝ) = -π * (180 / π) := by field_simp; ring
      _ < atan2 (-u) (-v) * (180 / π) := h3
  · have h3 := mul_le_mul_of_nonneg_right h2 (show (0:ℝ) ≤ 180 / π by positivity)
    calc atan2 (-u) (-v) * (180 / π) ≤ π * (180 / π) := h3
      _ = 180 := by field_simp

lemma dirNorm_range {w : ℝ} (h1 : -180 < w) (h2 : w ≤ 180) :
    0 ≤ dirNorm w ∧ dirNorm w < 360 := by
  unfold dirNorm
  split_ifs with h <;> constructor <;> linarith

lemma dirSnap_range {w : ℝ} (h1 : 0 ≤ w) (h2 : w < 360) :
    0 ≤ dirSnap w ∧ dirSnap w < 360 := by
  unfold dirSnap
  split_ifs with h
  · norm_num
  · exact ⟨h1, h2⟩

lemma dirNormF_present (w : ℝ) : dirNormF (w, false) = (dirNorm w, false) := by
  unfold dirNormF dirNorm
  by_cases h : w < 0 <;> simp [h]

lemma snapTolF_present (w : ℝ) : snapTolF (w, false) = (dirSnap w, false) := by
  unfold snapTolF dirSnap
  by_cases h : |w| < TOL <;> simp [h]

lemma mag_fieldF_getElem? (us vs : List (ℝ × Bool)) (m : ℝ) (i : ℕ)
    (a b : ℝ) (ha : us[i]? = some (a, false)) (hb : vs[i]? = some (b, false))
    (ham : a ≠ m) (hbm : b ≠ m) :
    (mag_field us vs m)[i]? = some (Real.sqrt (a ^ 2 + b ^ 2), false) := by
  have h1 := maskMissingF_getElem? m us i a false ha
  have h2 := maskMissingF_getElem? m vs i b false hb
  rw [if_neg ham] at h1
  rw [if_neg hbm] at h2
  simp [mag_field, List.getElem?_zipWith', h1, h2, maUn, maBin]

/-! ### C3: comp2vec formula and direction range -/

/-- C3: on non-missing inputs (scalar, or element-wise over fields at a
position carrying those unmasked values), `comp2vec` returns the
direction `degrees(atan2(-u, -v))`, incremented by 360 when negative and
snapped to 0 below `TOL`, which always lies in `[0, 360)`, and the speed
`sqrt(u^2 + v^2)` from `mag`. -/
theorem comp2vec_formula (u v : ℝ) (hu : u ≠ MISSING) (hv : v ≠ MISSING) :
    comp2vec_scalar u v MISSING
      = (some (dirSnap (dirNorm (degrees (atan2 (-u) (-v))))),
         some (Real.sqrt (u ^ 2 + v ^ 2))) ∧
    0 ≤ dirSnap (dirNorm (degrees (atan2 (-u) (-v)))) ∧
    dirSnap (dirNorm (degrees (atan2 (-u) (-v)))) < 360 ∧
    (∀ (us vs : List (ℝ × Bool)) (i : ℕ),
        us[i]? = some (u, false) → vs[i]? = some (v, false) →
        (comp2vec_field us vs MISSING).1[i]?
          = some (dirSnap (dirNorm (degrees (atan2 (-u) (-v)))), false) ∧
        (comp2vec_field us vs MISSING).2[i]?
          = some (Real.sqrt (u ^ 2 + v ^ 2), false)) := by
  have hb := dirRaw_bounds u v
  have hn := dirNorm_range hb.1 hb.2
  have hs := dirSnap_range hn.1 hn.2
  have hraw : dirRaw u v = degrees (atan2 (-u) (-v)) := rfl
  have hcond : ¬(u = MISSING ∨ v = MISSING) := by tauto
  refine ⟨?_, hraw ▸ hs.1, hraw ▸ hs.2, fun us vs i hus hvs => ⟨?_, ?_⟩⟩
  · simp only [comp2vec_scalar, mag_scalar, dirRaw]
    rw [if_neg hcond, if_neg hcond]
  · have h0 : (List.zipWith
        (fun x y => (degrees (atan2 (-x.1) (-y.1)), x.2 || y.2)) us vs)[i]?
        = some (degrees (atan2 (-u) (-v)), false) := by
      simp [List.getElem?_zipWith', hus, hvs]
    have h1 := maskMissingF_getElem? MISSING us i u false hus
    have h2 := maskMissingF_getElem? MISSING vs i v false hvs
    rw [if_neg hu] at h1
    rw [if_neg hv] at h2
    have hw1 := maskByF_getElem? _ _ i _ _ _ _ h0 h1
    have hw2 := maskByF_getElem? _ _ i _ _ _ _ hw1 h2
    rw [comp2vec_fieldF_eq]
    simp [List.getElem?_map, hw2, dirNormF_present, snapTolF_present]
  · have h1 := maskMissingF_getElem? MISSING us i u false hus
    have h2 := maskMissingF_getElem? MISSING vs i v false hvs
    rw [if_neg hu] at h1
    rw [if_neg hv] at h2
    rw [comp2vec_fieldF_eq]
    exact mag_fieldF_getElem? _ _ MISSING i u v h1 h2 hu hv

/-- Witness for C3 at `u = 3`, `v = 4`. -/
theorem comp2vec_formula_witness :
    (3 : ℝ) ≠ MISSING ∧ (4 : ℝ) ≠ MISSING ∧
    comp2vec_scalar 3 4 MISSING
      = (some (dirSnap (dirNorm (degrees (atan2 (-3) (-4))))),
         some (Real.sqrt (3 ^ 2 + 4 ^ 2))) ∧
    0 ≤ dirSnap (dirNorm (degrees (atan2 (-3) (-4)))) :=
  ⟨by norm_num [MISSING], by norm_num [MISSING],
   (comp2vec_formula 3 4 (by norm_num [MISSING]) (by norm_num [MISSING])).1,
   (comp2vec_formula 3 4 (by norm_num [MISSING]) (by norm_num [MISSING])).2.1⟩

/-! ### The round trip (C1) -/

lemma snapTol_id {x : ℝ} (h : x = 0 ∨ TOL ≤ |x|) : snapTol (some x) = some x := by
  show (if |x| < TOL then some (0 : ℝ) else some x) = some x
  rcases h with h | h
  · subst h
    split_ifs <;> rfl
  · rw [if_neg (not_lt.mpr h)]

lemma atan2_smul_cos_sin (s θ : ℝ) (hs : 0 < s) (h1 : 0 ≤ θ) (h2 : θ < 2 * π) :
    atan2 (s * Real.sin θ) (s * Real.cos θ)
      = if θ ≤ π then θ else θ - 2 * π := by
  have hπ := Real.pi_pos
  have hc : ((s * Real.cos θ : ℝ) : ℂ) + ((s * Real.sin θ : ℝ) : ℂ) * Complex.I
      = (s : ℂ) * (((Real.cos θ : ℝ) : ℂ) + ((Real.sin θ : ℝ) : ℂ) * Complex.I) := by
    push_cast
    ring
  unfold atan2
  rw [hc, Complex.arg_real_mul _ hs]
  split_ifs with h
  · rw [Complex.ofReal_cos, Complex.ofReal_sin]
    exact Complex.arg_cos_add_sin_mul_I ⟨by linarith, h⟩
  · push_neg at h
    have e1 : Real.cos θ = Real.cos (θ - 2 * π) := (Real.cos_sub_two_pi θ).symm
    have e2 : Real.sin θ = Real.sin (θ - 2 * π) := (Real.sin_sub_two_pi θ).symm
    rw [e1, e2, Complex.ofReal_cos, Complex.ofReal_sin]
    exact Complex.arg_cos_add_sin_mul_I ⟨by linarith, by linarith⟩

/-- When `comp2vec` is fed the exact polar components of a direction
`D ∈ [0, 360)` and a positive speed `s` (neither component colliding with
the sentinel), it recovers `D` (snapped to 0 below `TOL`) and `s`. -/
lemma comp2vec_of_polar (s D : ℝ) (hs : 0 < s) (hD0 : 0 ≤ D) (hD1 : D < 360)
    (hum : s * Real.sin (radians D) * (-1) ≠ MISSING)
    (hvm : s * Real.cos (radians D) * (-1) ≠ MISSING) :
    comp2vec_scalar (s * Real.sin (radians D) * (-1))
        (s * Real.cos (radians D) * (-1)) MISSING
      = (some (if D < TOL then 0 else D), some s) := by
  have hπ := Real.pi_pos
  have hθ0 : 0 ≤ radians D := by unfold radians; positivity
  have hθ1 : radians D < 2 * π := by
    unfold radians
    calc D * (π / 180) < 360 * (π / 180) :=
          mul_lt_mul_of_pos_right hD1 (by positivity)
      _ = 2 * π := by ring
  have hneg1 : -(s * Real.sin (radians D) * (-1)) = s * Real.sin (radians D) := by
    ring
  have hneg2 : -(s * Real.cos (radians D) * (-1)) = s * Real.cos (radians D) := by
    ring
  have hdir : dirSnap (dirNorm (dirRaw (s * Real.sin (radians D) * (-1))
      (s * Real.cos (radians D) * (-1)))) = if D < TOL then 0 else D := by
    unfold dirRaw
    rw [hneg1, hneg2, atan2_smul_cos_sin s _ hs hθ0 hθ1]
    by_cases hcase : radians D ≤ π
    · rw [if_pos hcase, degrees_radians]
      unfold dirNorm
      rw [if_neg (not_lt.mpr hD0)]
      unfold dirSnap
      rw [abs_of_nonneg hD0]
    · rw [if_neg hcase]
      have hdeg : degrees (radians D - 2 * π) = D - 360 := by
        unfold degrees radians
        field_simp
        ring
      rw [hdeg]
      unfold dirNorm
      rw [if_pos (by linarith)]
      have h360 : D - 360 + 360 = D := by ring
      rw [h360]
      unfold dirSnap
      rw [abs_of_nonneg hD0]
  have hmag : mag_scalar (s * Real.sin (radians D) * (-1))
      (s * Real.cos (radians D) * (-1)) MISSING = some s := by
    unfold mag_scalar
    rw [if_neg (by tauto)]
    have hsq : (s * Real.sin (radians D) * (-1)) ^ 2
        + (s * Real.cos (radians D) * (-1)) ^ 2 = s ^ 2 := by
      have hpyth := Real.sin_sq_add_cos_sq (radians D)
      nlinarith [hpyth]
    rw [hsq, Real.sqrt_sq hs.le]
  simp only [comp2vec_scalar]
  rw [if_neg (by tauto), hdir, hmag]

/-- C1 (amended): for a non-sentinel direction `d` and a positive speed
`s` such that each computed component is either exactly 0 or at least
`TOL` in absolute value and neither equals the sentinel, the round trip
`comp2vec(*vec2comp(d, s))` returns `d mod 360` (snapped to 0 below
`TOL`) and the speed `s` exactly. -/
theorem vec2comp_comp2vec_roundtrip (d s : ℝ) (hd : d ≠ MISSING) (hs : 0 < s)
    (hu : s * Real.sin (radians (fmod d 360)) * (-1) = 0 ∨
          TOL ≤ |s * Real.sin (radians (fmod d 360)) * (-1)|)
    (hv : s * Real.cos (radians (fmod d 360)) * (-1) = 0 ∨
          TOL ≤ |s * Real.cos (radians (fmod d 360)) * (-1)|)
    (hum : s * Real.sin (radians (fmod d 360)) * (-1) ≠ MISSING)
    (hvm : s * Real.cos (radians (fmod d 360)) * (-1) ≠ MISSING) :
    roundTrip d s MISSING
      = (some (if fmod d 360 < TOL then 0 else fmod d 360), some s) := by
  have hsm : s ≠ MISSING := by
    intro h
    rw [MISSING] at h
    linarith
  have h1 : vec2comp_scalar d s MISSING
      = (some (s * Real.sin (radians (fmod d 360)) * (-1)),
         some (s * Real.cos (radians (fmod d 360)) * (-1))) := by
    simp only [vec2comp_scalar, vec2compMaskedS, _vec2comp, mLift2,
      if_neg hd, if_neg hsm]
    rw [snapTol_id hu, snapTol_id hv]
  unfold roundTrip
  rw [h1]
  exact comp2vec_of_polar s (fmod d 360) hs (fmod_nonneg d) (fmod_lt_360 d)
    hum hvm

/-- Witness for C1 (amended) at `d = 180`, `s = 2`: the round trip gives
back direction 180 and speed 2. -/
theorem vec2comp_comp2vec_roundtrip_witness :
    (180 : ℝ) ≠ MISSING ∧ (0 : ℝ) < 2 ∧
    roundTrip 180 2 MISSING = (some 180, some 2) := by
  have h180 : fmod (180 : ℝ) 360 = 180 := fmod_eq_self (by norm_num) (by norm_num)
  have hrad : radians (180 : ℝ) = π := by
    unfold radians
    ring
  have hsin : Real.sin (radians (fmod (180 : ℝ) 360)) = 0 := by
    rw [h180, hrad, Real.sin_pi]
  have hcos : Real.cos (radians (fmod (180 : ℝ) 360)) = -1 := by
    rw [h180, hrad, Real.cos_pi]
  have h := vec2comp_comp2vec_roundtrip 180 2 (by norm_num [MISSING])
    (by norm_num)
    (Or.inl (by rw [hsin]; ring))
    (Or.inr (by rw [hcos]; norm_num [TOL]))
    (by rw [hsin]; norm_num [MISSING])
    (by rw [hcos]; norm_num [MISSING])
  refine ⟨by norm_num [MISSING], by norm_num, ?_⟩
  rw [h, h180, if_neg (by norm_num [TOL])]

/-- C1 counterexample: at `d = 90`, `s = 9999` the computed `u` component
equals the sentinel (-9999), so the round trip returns a fully masked
pair instead of direction 90 and speed 9999. -/
theorem roundtrip_sentinel_collision :
    roundTrip 90 9999 MISSING = (none, none) ∧
    ((none, none) : Option ℝ × Option ℝ) ≠ (some 90, some 9999) := by
  constructor
  · have h90 : fmod (90 : ℝ) 360 = 90 := fmod_eq_self (by norm_num) (by norm_num)
    have hrad : radians (90 : ℝ) = π / 2 := by
      unfold radians
      ring
    have hsin : Real.sin (radians (fmod (90 : ℝ) 360)) = 1 := by
      rw [h90, hrad, Real.sin_pi_div_two]
    have hcos : Real.cos (radians (fmod (90 : ℝ) 360)) = 0 := by
      rw [h90, hrad, Real.cos_pi_div_two]
    have hd : (90 : ℝ) ≠ MISSING := by norm_num [MISSING]
    have hsm : (9999 : ℝ) ≠ MISSING := by norm_num [MISSING]
    have h1 : vec2comp_scalar 90 9999 MISSING = (some (-9999), some 0) := by
      simp only [vec2comp_scalar, vec2compMaskedS, _vec2comp, mLift2,
        if_neg hd, if_neg hsm]
      rw [hsin, hcos]
      norm_num [snapTol, TOL]
    unfold roundTrip
    rw [h1]
    show comp2vec_scalar (-9999) 0 MISSING = (none, none)
    simp only [comp2vec_scalar]
    rw [if_pos (Or.inl (by norm_num [MISSING]))]
  · simp
